import Mathlib

/-!
Verification of the session-to-findings pipeline of the claude-code-reflector
repository: a shallow embedding in Lean 4 of the pure core of the code
(verdict parsing, Stage-1 response validation, the transcript condenser,
the progress ledger and session discovery), together with theorems about it.

Conventions of the embedding:
* JavaScript values produced by `JSON.parse` are modelled by the inductive
  type `Json` below; a raw classifier response is modelled by the outcome of
  `JSON.parse` on it, of type `Option Json` (`none` = the parse threw).
  `JSON.parse` itself is a host-language primitive, not code of this
  repository.
* JavaScript truthiness and `typeof x === "object"` are modelled explicitly
  (`jsTruthy`, `jsTypeofObject`); note `typeof null === "object"` and arrays
  are objects, exactly as in JavaScript.
* Strings are Lean `String`s; the few string primitives the source uses
  (`slice`, `trim`, `toLowerCase`, `indexOf`, `startsWith`, `join`) are
  defined below on the character list so that they compute.
-/

/-- Model of a parsed JSON / JavaScript value (the result of `JSON.parse`).
Object fields are kept in insertion order with unique keys, as in a
JavaScript object. -/
inductive Json where
  | null : Json
  | bool (b : Bool) : Json
  | num (n : Int) : Json
  | str (s : String) : Json
  | arr (elems : List Json) : Json
  | obj (fields : List (String × Json)) : Json

/-- JavaScript truthiness of a value (`!x` is the negation of this). -/
def jsTruthy : Json → Bool
  | Json.null => false
  | Json.bool b => b
  | Json.num n => decide (n ≠ 0)
  | Json.str s => decide (s ≠ "")
  | Json.arr _ => true
  | Json.obj _ => true

/-- JavaScript `typeof x === "object"`: true for objects, arrays and `null`. -/
def jsTypeofObject : Json → Bool
  | Json.null => true
  | Json.arr _ => true
  | Json.obj _ => true
  | _ => false

/-- Is the value exactly `null` (JavaScript `x === null`). -/
def Json.isNull : Json → Bool
  | Json.null => true
  | _ => false

/-- Property access `x[key]` on a JavaScript value: a field of an object,
`none` (undefined) otherwise (named property access on an array or a
primitive yields undefined for the names used by this code). -/
def Json.getField : Json → String → Option Json
  | Json.obj fields, key => (fields.find? fun p => p.fst == key).map Prod.snd
  | _, _ => none

/-- `Object.values(x)` for the values this code applies it to: the field
values of an object in insertion order, the elements of an array. -/
def Json.objValues : Json → List Json
  | Json.obj fields => fields.map Prod.snd
  | Json.arr elems => elems
  | _ => []

/-- A Stage-1 candidate finding (`Tier1Flag` in `src/types/findings.ts`).
The three `type` values and three `confidence` values are strings on the
wire; they are kept as strings here, as in the source. -/
structure Tier1Flag where
  type : String
  excerpt : String
  whatHappened : String
  recommendation : String
  confidence : String
  suggestedRule : Option String := none
  skillName : Option String := none
deriving DecidableEq, Repr

instance : Inhabited Tier1Flag :=
  ⟨{ type := "", excerpt := "", whatHappened := "", recommendation := "", confidence := "" }⟩

/-- A Stage-2 verdict (`Tier2Verdict` in `src/types/findings.ts`). -/
structure Tier2Verdict where
  originalFinding : Tier1Flag
  verified : Bool
  reasoning : String
  refinedRecommendation : Option String := none
  refinedSuggestedRule : Option String := none
  evidence : List String
  confidence : String
deriving DecidableEq, Repr

/-- `isValidConfidence` from `src/analyzer/tier2-prompts.ts`: the argument is
the (possibly undefined) `confidence` property of a response element. -/
def isValidConfidence : Option Json → Bool
  | some (Json.str s) => s == "low" || s == "medium" || s == "high"
  | _ => false

/-- The fallback verdict list from `fallbackVerdicts` in
`src/analyzer/tier2-prompts.ts` (whole response unusable). -/
def fallbackVerdicts (flags : List Tier1Flag) : List Tier2Verdict :=
  flags.map fun flag =>
    { originalFinding := flag
      verified := false
      reasoning := "Failed to parse verification response"
      evidence := []
      confidence := "low" }

/-- The per-position fallback verdict in `parseVerdicts` (element `i` of the
response missing, falsy, or not an object). -/
def noVerdict (flag : Tier1Flag) : Tier2Verdict :=
  { originalFinding := flag
    verified := false
    reasoning := "No verdict returned by verification model"
    evidence := []
    confidence := "low" }

/-- Field extraction from a (truthy object) response element, the main branch
of the map in `parseVerdicts`. -/
def extractVerdict (flag : Tier1Flag) (raw : Json) : Tier2Verdict :=
  { originalFinding := flag
    verified := match raw.getField "verified" with
      | some (Json.bool b) => b
      | _ => false
    reasoning := match raw.getField "reasoning" with
      | some (Json.str s) => s
      | _ => "No reasoning provided"
    refinedRecommendation := match raw.getField "refinedRecommendation" with
      | some (Json.str s) => some s
      | _ => none
    refinedSuggestedRule := match raw.getField "refinedSuggestedRule" with
      | some (Json.str s) => some s
      | _ => none
    evidence := match raw.getField "evidence" with
      | some (Json.arr xs) => xs.filterMap fun e =>
          match e with
          | Json.str s => some s
          | _ => none
      | _ => []
    confidence := if isValidConfidence (raw.getField "confidence") then
        match raw.getField "confidence" with
        | some (Json.str s) => s
        | _ => flag.confidence
      else flag.confidence }

/-- The verdict produced for input candidate `flag` at position `i`, given
the parsed response array `elems` (`parsed[i]` is `elems[i]?`; an index past
the end is JavaScript `undefined`, which is falsy). -/
def verdictFor (elems : List Json) (i : Nat) (flag : Tier1Flag) : Tier2Verdict :=
  match elems[i]? with
  | some raw =>
      if jsTruthy raw && jsTypeofObject raw then extractVerdict flag raw
      else noVerdict flag
  | none => noVerdict flag

/-- `parseVerdicts` from `src/analyzer/tier2-prompts.ts`.  The first argument
is the outcome of `JSON.parse` on the (code-fence-unwrapped) response text:
`none` when the parse threw, `some v` for a parsed value `v`; a non-array
value takes the same fallback branch as a parse failure. -/
def parseVerdicts (parsed : Option Json) (originalFlags : List Tier1Flag) : List Tier2Verdict :=
  match parsed with
  | some (Json.arr elems) => originalFlags.enum.map fun p => verdictFor elems p.fst p.snd
  | _ => fallbackVerdicts originalFlags

/-- `isValidFlag` from `src/analyzer/tier1.ts`: shape validation of one
Stage-1 response element. -/
def isValidFlag (flag : Json) : Bool :=
  if !(jsTypeofObject flag) || flag.isNull then false
  else
    (match flag.getField "type" with
      | some (Json.str t) => t == "missing-rule" || t == "skill-unused" || t == "skill-correction"
      | _ => false) &&
    (match flag.getField "excerpt" with
      | some (Json.str _) => true
      | _ => false) &&
    (match flag.getField "whatHappened" with
      | some (Json.str _) => true
      | _ => false) &&
    (match flag.getField "recommendation" with
      | some (Json.str _) => true
      | _ => false) &&
    (match flag.getField "confidence" with
      | some (Json.str c) => c == "low" || c == "medium" || c == "high"
      | _ => false)

/-- The flag-list computation of `analyzeTier1` in `src/analyzer/tier1.ts`:
the parsed response (outcome of `JSON.parse`, `none` = threw) is filtered
through `isValidFlag` when it is an array, and yields no findings otherwise. -/
def analyzeTier1Flags (parsed : Option Json) : List Json :=
  match parsed with
  | some (Json.arr elems) => elems.filter isValidFlag
  | _ => []

/-!
Transcript condenser, from the session parser (`session-parser.ts`, the
version with tool-context extraction).  File streaming is I/O; the pure
per-message and assembly functions are embedded below.
-/

def MAX_ASSISTANT_CHARS : Nat := 2000

def MAX_TOTAL_CHARS : Nat := 500000

def FULL_MAX_TOTAL_CHARS : Nat := 800000

def FULL_WINDOW_SIZE : Nat := 50

def TOOL_PARAM_CHARS : Nat := 300

def TOOL_ERROR_CHARS : Nat := 800

/-- Message role, the `'user' | 'assistant'` union of the source. -/
inductive Role where
  | user : Role
  | assistant : Role
deriving DecidableEq, Repr

/-- `ParsedMessage` of the session parser. -/
structure ParsedMessage where
  role : Role
  text : String
deriving DecidableEq, Repr

instance : Inhabited ParsedMessage := ⟨⟨Role.user, ""⟩⟩

/-- `parts.join("\n")`: interleave the list elements with single newlines. -/
def joinLines : List String → String
  | [] => ""
  | [s] => s
  | s :: rest => s ++ "\n" ++ joinLines rest

/-- `truncate` from the session parser: `text.slice(0, maxChars) + "..."`
for text over the budget, identity otherwise. -/
def truncate (text : String) (maxChars : Nat) : String :=
  if text.length ≤ maxChars then text else String.mk (text.data.take maxChars) ++ "..."

/-- JavaScript `s.toLowerCase()` (character-wise). -/
def jsToLower (s : String) : String := String.mk (s.data.map Char.toLower)

/-- JavaScript `s.startsWith(p)`. -/
def jsStartsWith (s p : String) : Bool := p.data.isPrefixOf s.data

/-- JavaScript `s.trim()`: strip whitespace from both ends. -/
def jsTrim (s : String) : String :=
  String.mk (((s.data.dropWhile Char.isWhitespace).reverse.dropWhile Char.isWhitespace).reverse)

/-- Position of the first occurrence of `needle` in `hay`
(JavaScript `indexOf`, `none` for `-1`). -/
def firstMatchPos : List Char → List Char → Option Nat
  | [], needle => if needle.isPrefixOf ([] : List Char) then some 0 else none
  | c :: rest, needle =>
      if needle.isPrefixOf (c :: rest) then some 0
      else (firstMatchPos rest needle).map (· + 1)

/-- One content block of a message, as the session parser inspects it.
`toolResult` content is a string, an array of blocks, or something else
(`none`). -/
inductive ContentBlock where
  | str (s : String)
  | text (t : String)
  | thinking (t : String)
  | toolUse (id : Option String) (name : Option String) (input : Option Json)
  | toolResult (toolUseId : Option String) (content : Option (String ⊕ List ContentBlock))
      (isError : Bool)
  | other

/-- `message.content`: a plain string, an array of blocks, or another value. -/
inductive MessageContent where
  | str (s : String)
  | blocks (bs : List ContentBlock)
  | other

/-- The contribution of one content block to the displayable text: plain
string blocks verbatim, `text` blocks with truthy (non-empty) text; other
block kinds (thinking, tool blocks) contribute nothing. -/
def textBlockPart : ContentBlock → Option String
  | ContentBlock.str s => some s
  | ContentBlock.text t => if t != "" then some t else none
  | _ => none

/-- `extractText` from the session parser: the concatenation of string and
(truthy) text blocks, truncated to `MAX_ASSISTANT_CHARS` for assistant
messages in bounded mode only. -/
def extractText (content : MessageContent) (role : Role) (full : Bool) : String :=
  match content with
  | MessageContent.str s =>
      if role == Role.assistant && !full then truncate s MAX_ASSISTANT_CHARS else s
  | MessageContent.blocks bs =>
      let joined := joinLines (bs.filterMap textBlockPart)
      if role == Role.assistant && !full then truncate joined MAX_ASSISTANT_CHARS else joined
  | MessageContent.other => ""

/-- `KEY_PARAM_MAP` from the session parser. -/
def KEY_PARAM_MAP : List (String × String) :=
  [("Bash", "command"), ("Edit", "file_path"), ("Write", "file_path"),
   ("Read", "file_path"), ("Grep", "pattern"), ("Glob", "pattern"),
   ("Task", "description"), ("WebSearch", "query"), ("WebFetch", "url")]

/-- `extractKeyParam` from the session parser; `none` models the `null`
return (Skill invocations are tracked separately, not rendered). -/
def extractKeyParam (toolName : String) (input : Option Json) : Option String :=
  if toolName == "Skill" then none
  else
    match input with
    | none => some ""
    | some j =>
      if !(jsTruthy j) || !(jsTypeofObject j) then some ""
      else
        match KEY_PARAM_MAP.lookup toolName with
        | some paramKey =>
          match j.getField paramKey with
          | some (Json.str v) => some (truncate v TOOL_PARAM_CHARS)
          | _ => some ""
        | none =>
          match j.objValues.findSome? (fun v =>
            match v with
            | Json.str s => some s
            | _ => none) with
          | some s => some (truncate s TOOL_PARAM_CHARS)
          | none => some ""

/-- `extractResultContent` from the session parser. -/
def extractResultContent (content : Option (String ⊕ List ContentBlock)) : String :=
  match content with
  | some (Sum.inl s) => s
  | some (Sum.inr bs) => joinLines (bs.filterMap fun b =>
      match b with
      | ContentBlock.text t => some t
      | _ => none)
  | none => ""

/-- `isUserRejection` from the session parser. -/
def isUserRejection (resultText : String) : Bool :=
  jsStartsWith resultText "The user doesn\x27t want"

/-- The `/Exit code [^0]/` regex test: some occurrence of `"Exit code "`
followed by a character other than `'0'`. -/
def hasNonzeroExitCode : List Char → Bool
  | [] => false
  | c :: rest =>
      ((("Exit code ".data).isPrefixOf (c :: rest)) &&
        (match (c :: rest).drop 10 with
         | d :: _ => d != '0'
         | [] => false)) || hasNonzeroExitCode rest

/-- `isToolError` from the session parser. -/
def isToolError (isErrorFlag : Bool) (resultText : String) : Bool :=
  isErrorFlag || hasNonzeroExitCode resultText.data

/-- `extractRejectionFeedback` from the session parser: find the fixed marker
phrase in the lowercased text, take everything after it, trim. -/
def extractRejectionFeedback (resultText : String) : String :=
  match firstMatchPos (jsToLower resultText).data ("the user said:\n").data with
  | none => ""
  | some idx => jsTrim (String.mk (resultText.data.drop (idx + ("the user said:\n").length)))

/-- The line contributed by one content block in `extractToolContext`
(`none` when the block contributes nothing). -/
def toolContextLine (role : Role) (toolUseNames : List (String × String))
    (b : ContentBlock) : Option String :=
  match b with
  | ContentBlock.toolUse _ (some name) input =>
      if role == Role.assistant && name != "" then
        match extractKeyParam name input with
        | none => none
        | some p =>
            some (if p != "" then "[" ++ jsToLower name ++ "] " ++ p
              else "[" ++ jsToLower name ++ "]")
      else none
  | ContentBlock.toolResult (some toolUseId) rc isErrorFlag =>
      if role == Role.user && (toolUseNames.lookup toolUseId).isSome then
        let resultText := extractResultContent rc
        if resultText == "" then none
        else if isUserRejection resultText then
          let feedback := extractRejectionFeedback resultText
          some (if feedback != "" then "[rejected] " ++ feedback else "[rejected]")
        else if isToolError isErrorFlag resultText then
          some ("[error] " ++ truncate resultText TOOL_ERROR_CHARS)
        else none
      else none
  | _ => none

/-- `extractToolContext` from the session parser: the labeled tool lines of
one message, in block order. -/
def extractToolContext (content : MessageContent) (role : Role)
    (toolUseNames : List (String × String)) : List String :=
  match content with
  | MessageContent.blocks bs => bs.filterMap (toolContextLine role toolUseNames)
  | _ => []

/-- The literal marker inserted between the kept head and kept tail. -/
def truncationMarker : String := "\n[... middle of conversation truncated ...]\n"

/-- One labeled message block: `"User: ..."` or `"Assistant: ..."`. -/
def fmtMessage (m : ParsedMessage) : String :=
  (if m.role = Role.user then "User" else "Assistant") ++ ": " ++ m.text

/-- The unwindowed conversation string `parts.join("\n")`. -/
def assembleText (messages : List ParsedMessage) : String :=
  joinLines (messages.map fmtMessage)

/-- Positions of user messages: `messages.map((m, i) => m.role === "user" ?
i : -1).filter(i => i !== -1)`. -/
def userIndicesOf (messages : List ParsedMessage) : List Nat :=
  (List.range messages.length).filter fun i => (messages.getD i default).role == Role.user

/-- `Set.add` on a set kept in insertion order, as `Array.from` observes it. -/
def setInsert (l : List Nat) (x : Nat) : List Nat := if x ∈ l then l else l ++ [x]

/-- One iteration of the `keepIndices` loop: add the kept user index, plus
the immediately preceding index when that message is an assistant message. -/
def keepStep (messages : List ParsedMessage) (acc : List Nat) (idx : Nat) : List Nat :=
  if 0 < idx ∧ (messages.getD (idx - 1) default).role = Role.assistant then
    setInsert (setInsert acc idx) (idx - 1)
  else setInsert acc idx

/-- The `keepIndices` set, built over the kept user indices. -/
def buildKeepIndices (messages : List ParsedMessage) (keptUsers : List Nat) : List Nat :=
  keptUsers.foldl (keepStep messages) []

/-- The active window half-size: `FULL_WINDOW_SIZE` in full mode, 20 in
bounded mode. -/
def windowSizeOf (full : Bool) : Nat := if full then FULL_WINDOW_SIZE else 20

/-- The active total-size threshold. -/
def maxTotalCharsOf (full : Bool) : Nat :=
  if full then FULL_MAX_TOTAL_CHARS else MAX_TOTAL_CHARS

/-- `userIndices.slice(0, windowSize)`. -/
def firstNUsers (messages : List ParsedMessage) (ws : Nat) : List Nat :=
  (userIndicesOf messages).take ws

/-- `userIndices.slice(-windowSize)`. -/
def lastNUsers (messages : List ParsedMessage) (ws : Nat) : List Nat :=
  (userIndicesOf messages).drop ((userIndicesOf messages).length - ws)

/-- The kept-index set of the windowing pass. -/
def keepIndicesOf (messages : List ParsedMessage) (ws : Nat) : List Nat :=
  buildKeepIndices messages (firstNUsers messages ws ++ lastNUsers messages ws)

/-- The rebuilt `parts` array: formatted kept messages in index order. -/
def windowedParts (messages : List ParsedMessage) (ws : Nat) : List String :=
  (List.range messages.length).filterMap fun i =>
    if i ∈ keepIndicesOf messages ws then some (fmtMessage (messages.getD i default))
    else none

/-- `Array.from(keepIndices).sort((a, b) => a - b)`. -/
def sortedKeepOf (messages : List ParsedMessage) (ws : Nat) : List Nat :=
  (keepIndicesOf messages ws).mergeSort fun a b => decide (a ≤ b)

/-- `firstLastNIdx`: the first of the kept tail user positions, `lastN[0]`. -/
def boundaryOf (messages : List ParsedMessage) (ws : Nat) : Nat :=
  (lastNUsers messages ws).getD 0 0

/-- JavaScript `findIndex` over indices `start, ..., start + fuel - 1`. -/
def jsFindIndexAux (p : Nat → Bool) : Nat → Nat → Int
  | 0, _ => -1
  | n + 1, i => if p i then (i : Int) else jsFindIndexAux p n (i + 1)

/-- JavaScript `Array(len).findIndex((_, i) => p i)`: first index satisfying
`p`, or `-1`. -/
def jsFindIndex (len : Nat) (p : Nat → Bool) : Int := jsFindIndexAux p len 0

/-- `insertPos`: first position of the rebuilt parts whose original index is
at or past the boundary. -/
def insertPosOf (messages : List ParsedMessage) (ws : Nat) : Int :=
  jsFindIndex (windowedParts messages ws).length fun i =>
    decide (boundaryOf messages ws ≤ (sortedKeepOf messages ws).getD i 0)

/-- The windowed conversation string (the `userIndices.length > windowSize *
2` branch). -/
def windowedText (messages : List ParsedMessage) (ws : Nat) : String :=
  if 0 < insertPosOf messages ws then
    joinLines ((windowedParts messages ws).take (insertPosOf messages ws).toNat
      ++ [truncationMarker] ++ (windowedParts messages ws).drop (insertPosOf messages ws).toNat)
  else joinLines (windowedParts messages ws)

/-- `buildConversationText` from the session parser. -/
def buildConversationText (messages : List ParsedMessage) (full : Bool) : String :=
  if maxTotalCharsOf full < (assembleText messages).length then
    if windowSizeOf full * 2 < (userIndicesOf messages).length then
      windowedText messages (windowSizeOf full)
    else assembleText messages
  else assembleText messages

/-!
Progress ledger, from `src/state/manager.ts` and `src/types/state.ts`.  The
JavaScript object `processedSessions` (a record keyed by session id) is
modelled as a lookup function; `new Date().toISOString()` is the explicit
`now` argument.
-/

/-- `ProcessedSessionRecord` from `src/types/state.ts`. -/
structure ProcessedSessionRecord where
  sessionId : String
  processedAt : String
  modifiedAt : String
  findingsCount : Nat
deriving DecidableEq, Repr

/-- `ReflectorState` from `src/types/state.ts`. -/
structure ReflectorState where
  lastRunAt : Option String
  processedSessions : String → Option ProcessedSessionRecord

/-- `isSessionProcessed` from `src/state/manager.ts`. -/
def isSessionProcessed (state : ReflectorState) (sessionId modifiedAt : String) : Bool :=
  match state.processedSessions sessionId with
  | none => false
  | some record => record.modifiedAt == modifiedAt

/-- `markSessionProcessed` from `src/state/manager.ts` (functional form of
the in-place update). -/
def markSessionProcessed (state : ReflectorState) (sessionId modifiedAt : String)
    (findingsCount : Nat) (now : String) : ReflectorState :=
  { lastRunAt := some now
    processedSessions := fun key =>
      if key = sessionId then
        some { sessionId := sessionId, processedAt := now, modifiedAt := modifiedAt,
               findingsCount := findingsCount }
      else state.processedSessions key }

/-- The two file-system locations `saveState` touches: the real state file
and its `.tmp` sibling.  `none` means the file does not exist. -/
structure LedgerFS where
  real : Option String
  temp : Option String
deriving DecidableEq, Repr

/-- `fs.writeFile(tempFile, content)` run to completion. -/
def writeTempFile (fs : LedgerFS) (content : String) : LedgerFS :=
  { fs with temp := some content }

/-- `fs.rename(tempFile, STATE_FILE)`: atomic replacement of the real file
by the temp file (POSIX rename semantics). -/
def renameTempOverReal (fs : LedgerFS) : LedgerFS :=
  { real := fs.temp, temp := none }

/-- `saveState` from `src/state/manager.ts`: write the full serialized new
state to the temp path, then rename it over the real path.  `content` is the
serialized state (`JSON.stringify(state, null, 2)`). -/
def saveState (fs : LedgerFS) (content : String) : LedgerFS :=
  renameTempOverReal (writeTempFile fs content)

/-- File-system states visible if the process crashes at any point during
`saveState`: before anything happened, during or just after the temp-file
write (an interrupted write can leave any prefix of the content in the temp
file; the real path is untouched), or after the atomic rename. -/
inductive SaveStateCrash (init : LedgerFS) (content : String) : LedgerFS → Prop
  | before : SaveStateCrash init content init
  | midWrite (p : List Char) (hp : p <+: content.data) :
      SaveStateCrash init content { real := init.real, temp := some (String.mk p) }
  | afterRename : SaveStateCrash init content (saveState init content)

/-!
Session discovery, from `readAllSessionEntries` in the index reader and the
selection logic of the `scan` command in `src/index.ts`.  `new
Date(s).getTime()` is a host-language primitive; it is passed in as the
`time` argument, so every theorem below holds for the actual JavaScript
date parser in particular.
-/

/-- `SessionIndexEntry` (the fields the discovery filter and sort read). -/
structure SessionIndexEntry where
  sessionId : String
  modified : String
  messageCount : Nat
  projectPath : String
  isSidechain : Bool
deriving DecidableEq, Repr

/-- The final sort of `readAllSessionEntries`:
`entries.sort((a, b) => new Date(b.modified).getTime() - new
Date(a.modified).getTime())` (a stable sort, newest first). -/
def sortEntriesByModifiedDesc (time : String → Int)
    (entries : List SessionIndexEntry) : List SessionIndexEntry :=
  entries.mergeSort fun a b => decide (time b.modified ≤ time a.modified)

/-- The `toProcess` list of the `scan` command: discovered entries with the
already-processed ones filtered out. -/
def scanToProcess (time : String → Int) (state : ReflectorState)
    (entries : List SessionIndexEntry) : List SessionIndexEntry :=
  (sortEntriesByModifiedDesc time entries).filter fun e =>
    !(isSessionProcessed state e.sessionId e.modified)

/-- `toProcess.slice(0, limit)`: the sessions selected for analysis when a
result limit is applied. -/
def scanSelect (time : String → Int) (state : ReflectorState)
    (entries : List SessionIndexEntry) (limit : Nat) : List SessionIndexEntry :=
  (scanToProcess time state entries).take limit

/-!
Specification-side comparison definitions (phrased after the spec's words,
to be proved equal to the code's output) and concrete fixtures used in
witnesses and counterexamples.
-/

/-- The user positions the spec says windowing keeps: the first `ws` and the
last `ws` user-message positions. -/
def specKeptUsers (messages : List ParsedMessage) (ws : Nat) : List Nat :=
  firstNUsers messages ws ++ lastNUsers messages ws

/-- The spec's kept predicate on message indices: a kept user position, or
the immediate predecessor of one when that message is an assistant message. -/
def specKeep (messages : List ParsedMessage) (ws : Nat) (i : Nat) : Bool :=
  decide (i ∈ specKeptUsers messages ws) ||
    (decide (i + 1 ∈ specKeptUsers messages ws) &&
      decide ((messages.getD i default).role = Role.assistant))

/-- The formatted message at an index. -/
def fmtAt (messages : List ParsedMessage) (i : Nat) : String :=
  fmtMessage (messages.getD i default)

/-- The head of the windowed output per the spec: kept indices strictly
before the boundary (the first kept tail user position), in order. -/
def specHeadParts (messages : List ParsedMessage) (ws : Nat) : List String :=
  ((List.range messages.length).filter fun i =>
    specKeep messages ws i && decide (i < boundaryOf messages ws)).map (fmtAt messages)

/-- The tail of the windowed output per the spec: kept indices at or past
the boundary, in order. -/
def specTailParts (messages : List ParsedMessage) (ws : Nat) : List String :=
  ((List.range messages.length).filter fun i =>
    specKeep messages ws i && decide (boundaryOf messages ws ≤ i)).map (fmtAt messages)

/-- The windowed output the spec describes: kept head, one literal marker
line, kept tail. -/
def specWindowedText (messages : List ParsedMessage) (ws : Nat) : String :=
  joinLines (specHeadParts messages ws ++ [truncationMarker] ++ specTailParts messages ws)

/-- A string of `n` copies of the letter `a`, to build concrete over-budget
sessions. -/
def bigText (n : Nat) : String := String.mk (List.replicate n 'a')

/-- A session of `k` user messages, each with the same text. -/
def userMsgs (k : Nat) (t : String) : List ParsedMessage :=
  List.replicate k ⟨Role.user, t⟩

/-- Discovery fixture: a session entry modified in 2031. -/
def entryA : SessionIndexEntry := ⟨"s1", "2031-01-01T00:00:00.000Z", 5, "/p", false⟩

/-- Discovery fixture: a session entry modified in 2030. -/
def entryB : SessionIndexEntry := ⟨"s2", "2030-01-01T00:00:00.000Z", 6, "/q", false⟩

/-- Discovery fixture: a distinct session sharing `entryA`'s timestamp. -/
def entryB2 : SessionIndexEntry := ⟨"s2", "2031-01-01T00:00:00.000Z", 6, "/q", false⟩

/-- An empty ledger state. -/
def emptyState : ReflectorState := ⟨none, fun _ => none⟩

/-- A date parser for the two fixture timestamps: the 2031 one is later. -/
def sampleTime : String → Int := fun s => if s = "2031-01-01T00:00:00.000Z" then 1 else 0

/-!
Helper lemmas.
-/

theorem fallbackVerdicts_length (flags : List Tier1Flag) :
    (fallbackVerdicts flags).length = flags.length := by
  simp [fallbackVerdicts]

theorem fallbackVerdicts_map_originalFinding (flags : List Tier1Flag) :
    (fallbackVerdicts flags).map Tier2Verdict.originalFinding = flags := by
  unfold fallbackVerdicts
  rw [List.map_map]
  have h : (Tier2Verdict.originalFinding ∘ fun flag : Tier1Flag =>
      ({ originalFinding := flag, verified := false,
         reasoning := "Failed to parse verification response",
         evidence := [], confidence := "low" } : Tier2Verdict)) = id := by
    funext flag
    rfl
  rw [h, List.map_id]

/-- Every branch of `verdictFor` carries the input candidate unchanged. -/
theorem verdictFor_originalFinding (elems : List Json) (i : Nat) (flag : Tier1Flag) :
    (verdictFor elems i flag).originalFinding = flag := by
  rcases h : elems[i]? with _ | raw
  · simp [verdictFor, h, noVerdict]
  · by_cases hc : (jsTruthy raw && jsTypeofObject raw) = true
    · simp [verdictFor, h, hc, extractVerdict]
    · simp [verdictFor, h, hc, noVerdict]

/-- A member of a joined list appears verbatim inside the join. -/
theorem joinLines_infix_of_mem : ∀ (l : List String) (x : String), x ∈ l →
    ∃ b a : String, joinLines l = b ++ x ++ a := by
  intro l
  induction l with
  | nil => intro x hx; cases hx
  | cons s rest ih =>
    intro x hx
    cases rest with
    | nil =>
      have hxs : x = s := by simpa using hx
      refine ⟨"", "", ?_⟩
      simp [joinLines, hxs, String.empty_append, String.append_empty]
    | cons s2 t2 =>
      have hj : joinLines (s :: s2 :: t2) = s ++ "\n" ++ joinLines (s2 :: t2) := rfl
      rcases List.mem_cons.mp hx with h | h
      · refine ⟨"", "\n" ++ joinLines (s2 :: t2), ?_⟩
        rw [hj, ← h]
        simp [String.empty_append, String.append_assoc]
      · obtain ⟨b, a, hba⟩ := ih x h
        refine ⟨s ++ "\n" ++ b, a, ?_⟩
        rw [hj, hba]
        simp [String.append_assoc]

/-!
Claim theorems.
-/

/-- Claim C1: for every Stage-1 candidate list and every parsed Verifier
response, `parseVerdicts` returns exactly one verdict per candidate, in
order: the output length equals the input length and the `originalFinding`
projection of the output is the input list itself (hence verdict `i` wraps
candidate `i`). -/
theorem parseVerdicts_positional (parsed : Option Json) (flags : List Tier1Flag) :
    (parseVerdicts parsed flags).length = flags.length ∧
    (parseVerdicts parsed flags).map Tier2Verdict.originalFinding = flags := by
  cases parsed with
  | none => exact ⟨fallbackVerdicts_length flags, fallbackVerdicts_map_originalFinding flags⟩
  | some j =>
    cases j with
    | arr elems =>
      constructor
      · show (flags.enum.map fun p => verdictFor elems p.fst p.snd).length = flags.length
        simp [List.enum_length]
      · show (flags.enum.map fun p => verdictFor elems p.fst p.snd).map
            Tier2Verdict.originalFinding = flags
        rw [List.map_map]
        have hfun : (Tier2Verdict.originalFinding ∘
            fun p : Nat × Tier1Flag => verdictFor elems p.fst p.snd) =
            fun p : Nat × Tier1Flag => p.snd := by
          funext p
          exact verdictFor_originalFinding elems p.fst p.snd
        rw [hfun]
        exact List.enum_map_snd flags
    | null => exact ⟨fallbackVerdicts_length flags, fallbackVerdicts_map_originalFinding flags⟩
    | bool b => exact ⟨fallbackVerdicts_length flags, fallbackVerdicts_map_originalFinding flags⟩
    | num n => exact ⟨fallbackVerdicts_length flags, fallbackVerdicts_map_originalFinding flags⟩
    | str s => exact ⟨fallbackVerdicts_length flags, fallbackVerdicts_map_originalFinding flags⟩
    | obj fields =>
      exact ⟨fallbackVerdicts_length flags, fallbackVerdicts_map_originalFinding flags⟩

/-- Claim C2: the Verifier fails closed.  (1) When the parse outcome is not
a JSON array (a thrown parse or a non-array value), every returned verdict
is the deterministic fallback: `verified = false`, reasoning stating the
parse failure, empty evidence, confidence `"low"`.  (2) When the response is
an array but position `i` is missing, falsy or not an object, the verdict at
position `i` is the per-position fail-closed default of the same shape.
(3) A finding is never silently confirmed: a verdict comes out
`verified = true` only when the response element at its position is present
with a literal boolean-`true` `verified` field. -/
theorem parseVerdicts_fail_closed :
    (∀ (parsed : Option Json) (flags : List Tier1Flag),
        (∀ elems, parsed ≠ some (Json.arr elems)) →
        ∀ v ∈ parseVerdicts parsed flags,
          v.verified = false ∧ v.reasoning = "Failed to parse verification response" ∧
            v.evidence = [] ∧ v.confidence = "low") ∧
    (∀ (elems : List Json) (flags : List Tier1Flag) (i : Nat),
        (jsTruthy (elems.getD i Json.null) && jsTypeofObject (elems.getD i Json.null)) = false →
        ∀ v, (parseVerdicts (some (Json.arr elems)) flags)[i]? = some v →
          v.verified = false ∧ v.reasoning = "No verdict returned by verification model" ∧
            v.evidence = [] ∧ v.confidence = "low") ∧
    (∀ (elems : List Json) (flags : List Tier1Flag) (i : Nat) (v : Tier2Verdict),
        (parseVerdicts (some (Json.arr elems)) flags)[i]? = some v →
        v.verified = true →
        ∃ raw, elems[i]? = some raw ∧ raw.getField "verified" = some (Json.bool true)) := by
  refine ⟨?_, ?_, ?_⟩
  · intro parsed flags hne v hv
    have hfb : parseVerdicts parsed flags = fallbackVerdicts flags := by
      cases parsed with
      | none => rfl
      | some j =>
        cases j with
        | arr elems => exact absurd rfl (hne elems)
        | null => rfl
        | bool b => rfl
        | num n => rfl
        | str s => rfl
        | obj fields => rfl
    rw [hfb] at hv
    simp only [fallbackVerdicts, List.mem_map] at hv
    obtain ⟨flag, -, rfl⟩ := hv
    exact ⟨rfl, rfl, rfl, rfl⟩
  · intro elems flags i hcond v hv
    have hv2 : (flags.enum.map fun p => verdictFor elems p.fst p.snd)[i]? = some v := hv
    rw [List.getElem?_map, List.getElem?_enum] at hv2
    cases hfi : flags[i]? with
    | none => rw [hfi] at hv2; simp at hv2
    | some flag =>
      rw [hfi] at hv2
      have hv3 : verdictFor elems i flag = v := by
        simpa using hv2
      subst hv3
      rcases he : elems[i]? with _ | raw
      · simp [verdictFor, he, noVerdict]
      · have hraw : (jsTruthy raw && jsTypeofObject raw) = false := by
          rw [List.getD_eq_getElem?_getD, he] at hcond
          simpa using hcond
        simp [verdictFor, he, hraw, noVerdict]
  · intro elems flags i v hv hver
    have hv2 : (flags.enum.map fun p => verdictFor elems p.fst p.snd)[i]? = some v := hv
    rw [List.getElem?_map, List.getElem?_enum] at hv2
    cases hfi : flags[i]? with
    | none => rw [hfi] at hv2; simp at hv2
    | some flag =>
      rw [hfi] at hv2
      have hv3 : verdictFor elems i flag = v := by
        simpa using hv2
      subst hv3
      rcases he : elems[i]? with _ | raw
      · have hfalse : (verdictFor elems i flag).verified = false := by
          simp [verdictFor, he, noVerdict]
        rw [hfalse] at hver
        exact Bool.noConfusion hver
      · by_cases hc : (jsTruthy raw && jsTypeofObject raw) = true
        · refine ⟨raw, rfl, ?_⟩
          have hvv : (extractVerdict flag raw).verified = true := by
            have heq : verdictFor elems i flag = extractVerdict flag raw := by
              simp [verdictFor, he, hc]
            rw [heq] at hver
            exact hver
          simp only [extractVerdict] at hvv
          cases hg : raw.getField "verified" with
          | none => rw [hg] at hvv; simp at hvv
          | some j =>
            cases j with
            | bool bb =>
              rw [hg] at hvv
              simp at hvv
              rw [hvv]
            | null => rw [hg] at hvv; simp at hvv
            | num n => rw [hg] at hvv; simp at hvv
            | str t => rw [hg] at hvv; simp at hvv
            | arr xs => rw [hg] at hvv; simp at hvv
            | obj fs => rw [hg] at hvv; simp at hvv
        · have hfalse : (verdictFor elems i flag).verified = false := by
            simp [verdictFor, he, hc, noVerdict]
          rw [hfalse] at hver
          exact Bool.noConfusion hver

/-- Witness for C2 at concrete inputs: a non-array response value
(`"oops"`), and a response array whose element 0 is `null` for the
positional part. -/
theorem parseVerdicts_fail_closed_witness :
    (∀ elems, (some (Json.str "oops") : Option Json) ≠ some (Json.arr elems)) ∧
    (∀ v ∈ parseVerdicts (some (Json.str "oops")) [default],
        v.verified = false ∧ v.reasoning = "Failed to parse verification response" ∧
          v.evidence = [] ∧ v.confidence = "low") ∧
    ((jsTruthy ([Json.null].getD 0 Json.null) && jsTypeofObject ([Json.null].getD 0 Json.null))
        = false) ∧
    (∀ v, (parseVerdicts (some (Json.arr [Json.null])) [default])[0]? = some v →
        v.verified = false ∧ v.reasoning = "No verdict returned by verification model" ∧
          v.evidence = [] ∧ v.confidence = "low") ∧
    ((parseVerdicts (some (Json.arr [Json.obj [("verified", Json.bool true)]])) [default])[0]? =
        some (extractVerdict default (Json.obj [("verified", Json.bool true)]))) ∧
    (extractVerdict default (Json.obj [("verified", Json.bool true)])).verified = true ∧
    (∃ raw, ([Json.obj [("verified", Json.bool true)]] : List Json)[0]? = some raw ∧
        raw.getField "verified" = some (Json.bool true)) := by
  have h1 : ∀ elems, (some (Json.str "oops") : Option Json) ≠ some (Json.arr elems) := by
    intro elems h
    exact Json.noConfusion (Option.some.inj h)
  have h3 : (jsTruthy ([Json.null].getD 0 Json.null) &&
      jsTypeofObject ([Json.null].getD 0 Json.null)) = false := rfl
  have h5 : (parseVerdicts (some (Json.arr [Json.obj [("verified", Json.bool true)]]))
      [default])[0]? =
      some (extractVerdict default (Json.obj [("verified", Json.bool true)])) := rfl
  have h6 : (extractVerdict default (Json.obj [("verified", Json.bool true)])).verified
      = true := rfl
  exact ⟨h1, parseVerdicts_fail_closed.1 _ [default] h1, h3,
    parseVerdicts_fail_closed.2.1 [Json.null] [default] 0 h3, h5, h6,
    parseVerdicts_fail_closed.2.2 _ [default] 0 _ h5 h6⟩

/-- Claim C8: Stage-1 response handling never errors the session.  A parse
outcome that is not a JSON array yields zero findings, and for an array
response exactly the elements passing `isValidFlag` (the Candidate Finding
shape validation) are kept, in order; invalid elements are discarded. -/
theorem analyzeTier1_fail_closed :
    (∀ parsed : Option Json,
        (∀ elems, parsed ≠ some (Json.arr elems)) → analyzeTier1Flags parsed = []) ∧
    (∀ (elems : List Json),
        analyzeTier1Flags (some (Json.arr elems)) = elems.filter isValidFlag ∧
        ∀ x : Json, x ∈ analyzeTier1Flags (some (Json.arr elems)) ↔
          x ∈ elems ∧ isValidFlag x = true) := by
  constructor
  · intro parsed h
    cases parsed with
    | none => rfl
    | some j =>
      cases j with
      | arr elems => exact absurd rfl (h elems)
      | null => rfl
      | bool b => rfl
      | num n => rfl
      | str s => rfl
      | obj fields => rfl
  · intro elems
    exact ⟨rfl, fun x => by
      show x ∈ elems.filter isValidFlag ↔ x ∈ elems ∧ isValidFlag x = true
      exact List.mem_filter⟩

/-- Witness for C8: the response value `"oops"` (not an array) yields zero
findings. -/
theorem analyzeTier1_fail_closed_witness :
    (∀ elems, (some (Json.str "oops") : Option Json) ≠ some (Json.arr elems)) ∧
    analyzeTier1Flags (some (Json.str "oops")) = [] := by
  have h1 : ∀ elems, (some (Json.str "oops") : Option Json) ≠ some (Json.arr elems) := by
    intro elems h
    exact Json.noConfusion (Option.some.inj h)
  exact ⟨h1, analyzeTier1_fail_closed.1 _ h1⟩

/-- Claim C6: the ledger invariant.  Immediately after
`markSessionProcessed id sig n`, `isSessionProcessed id sig` holds and
`isSessionProcessed id otherSig` is false for every `otherSig ≠ sig`; in
general a session counts as processed iff a stored record for its id exists
whose signature equals the queried one exactly. -/
theorem ledger_mark_isProcessed :
    (∀ (state : ReflectorState) (id sig : String) (n : Nat) (now : String),
        isSessionProcessed (markSessionProcessed state id sig n now) id sig = true) ∧
    (∀ (state : ReflectorState) (id sig : String) (n : Nat) (now otherSig : String),
        otherSig ≠ sig →
        isSessionProcessed (markSessionProcessed state id sig n now) id otherSig = false) ∧
    (∀ (state : ReflectorState) (id sig : String),
        isSessionProcessed state id sig = true ↔
          ∃ r, state.processedSessions id = some r ∧ r.modifiedAt = sig) := by
  refine ⟨?_, ?_, ?_⟩
  · intro state id sig n now
    simp [isSessionProcessed, markSessionProcessed]
  · intro state id sig n now otherSig hne
    have hrec : (markSessionProcessed state id sig n now).processedSessions id =
        some { sessionId := id, processedAt := now, modifiedAt := sig, findingsCount := n } := by
      simp [markSessionProcessed]
    unfold isSessionProcessed
    rw [hrec]
    show (sig == otherSig) = false
    rw [beq_eq_false_iff_ne]
    exact fun h => hne h.symm
  · intro state id sig
    unfold isSessionProcessed
    cases h : state.processedSessions id with
    | none => simp
    | some r => simp

/-- Witness for C6 at concrete inputs (empty ledger, session `"s1"`,
signature `"m1"`, distinct signature `"m2"`). -/
theorem ledger_mark_isProcessed_witness :
    ("m2" : String) ≠ "m1" ∧
    isSessionProcessed
      (markSessionProcessed ⟨none, fun _ => none⟩ "s1" "m1" 2 "t0") "s1" "m1" = true ∧
    isSessionProcessed
      (markSessionProcessed ⟨none, fun _ => none⟩ "s1" "m1" 2 "t0") "s1" "m2" = false := by
  refine ⟨by decide, ledger_mark_isProcessed.1 _ "s1" "m1" 2 "t0", ?_⟩
  exact ledger_mark_isProcessed.2.1 ⟨none, fun _ => none⟩ "s1" "m1" 2 "t0" "m2" (by decide)

/-- Claim C7: atomic persistence.  Every state visible under a crash at any
point of `saveState` (before, during or after the temp write, or after the
rename) holds either the entire old content or the entire new content at the
real ledger path, never a mix; and a completed `saveState` leaves exactly
the new content there. -/
theorem saveState_atomic :
    (∀ (init : LedgerFS) (content : String) (fs : LedgerFS),
        SaveStateCrash init content fs → fs.real = init.real ∨ fs.real = some content) ∧
    (∀ (init : LedgerFS) (content : String), (saveState init content).real = some content) := by
  constructor
  · intro init content fs h
    cases h with
    | before => exact Or.inl rfl
    | midWrite p hp => exact Or.inl rfl
    | afterRename => exact Or.inr rfl
  · intro init content
    rfl

/-- Witness for C7: a crash mid-write of `"new"` (only `"ne"` reached the
temp file) leaves the old content at the real path. -/
theorem saveState_atomic_witness :
    SaveStateCrash ⟨some "old", none⟩ "new" ⟨some "old", some (String.mk ['n', 'e'])⟩ ∧
    ((⟨some "old", some (String.mk ['n', 'e'])⟩ : LedgerFS).real =
        (⟨some "old", none⟩ : LedgerFS).real ∨
      (⟨some "old", some (String.mk ['n', 'e'])⟩ : LedgerFS).real = some "new") := by
  have h : SaveStateCrash ⟨some "old", none⟩ "new"
      ⟨some "old", some (String.mk ['n', 'e'])⟩ :=
    SaveStateCrash.midWrite ['n', 'e'] (by decide)
  exact ⟨h, saveState_atomic.1 _ "new" _ h⟩

/-- Claim C3: user text is never cut by per-message extraction.  (1) For a
user message the extracted text is identical in bounded and full mode (the
bounded-mode budget never applies); (2) plain-string user content is
returned verbatim; (3) every non-empty user text block appears verbatim
inside the extracted text; (4) in bounded mode an assistant message's text
is exactly the truncation (to `MAX_ASSISTANT_CHARS`) of its untruncated
full-mode text — only assistant text is ever shortened. -/
theorem extractText_user_never_truncated :
    (∀ (content : MessageContent) (full : Bool),
        extractText content Role.user full = extractText content Role.user true) ∧
    (∀ (s : String) (full : Bool), extractText (MessageContent.str s) Role.user full = s) ∧
    (∀ (bs : List ContentBlock) (t : String) (full : Bool),
        ContentBlock.text t ∈ bs → t ≠ "" →
        ∃ b a : String, extractText (MessageContent.blocks bs) Role.user full = b ++ t ++ a) ∧
    (∀ content : MessageContent,
        extractText content Role.assistant false =
          truncate (extractText content Role.assistant true) MAX_ASSISTANT_CHARS) := by
  refine ⟨?_, ?_, ?_, ?_⟩
  · intro content full
    cases content <;> rfl
  · intro s full
    rfl
  · intro bs t full hmem hne
    have ht : t ∈ bs.filterMap textBlockPart := by
      apply List.mem_filterMap.mpr
      refine ⟨ContentBlock.text t, hmem, ?_⟩
      simp [textBlockPart, hne]
    obtain ⟨b, a, hba⟩ := joinLines_infix_of_mem (bs.filterMap textBlockPart) t ht
    exact ⟨b, a, hba⟩
  · intro content
    cases content <;> rfl

/-- Witness for C3: a single non-empty user text block is reproduced
verbatim in the extracted text in bounded mode. -/
theorem extractText_user_never_truncated_witness :
    (ContentBlock.text "keep me" ∈ [ContentBlock.text "keep me"]) ∧
    ("keep me" : String) ≠ "" ∧
    ∃ b a : String,
      extractText (MessageContent.blocks [ContentBlock.text "keep me"]) Role.user false =
        b ++ "keep me" ++ a := by
  refine ⟨List.mem_cons_self _ _, by decide, ?_⟩
  exact extractText_user_never_truncated.2.2.1 [ContentBlock.text "keep me"] "keep me" false
    (List.mem_cons_self _ _) (by decide)

/-- Claim C9: rejection extraction.  A tool result paired to a known
invocation whose (non-empty) content indicates a user rejection produces
exactly one line: `"[rejected] <feedback>"`, where the feedback is the
trimmed text after the fixed marker phrase, or the bare `"[rejected]"` when
that feedback is empty (in particular when the marker is absent). -/
theorem rejection_line_extraction
    (toolUseNames : List (String × String)) (toolUseId : String)
    (rc : Option (String ⊕ List ContentBlock)) (isErrorFlag : Bool)
    (hknown : (toolUseNames.lookup toolUseId).isSome = true)
    (hne : extractResultContent rc ≠ "")
    (hrej : isUserRejection (extractResultContent rc) = true) :
    extractToolContext (MessageContent.blocks
        [ContentBlock.toolResult (some toolUseId) rc isErrorFlag]) Role.user toolUseNames =
      [if extractRejectionFeedback (extractResultContent rc) != "" then
          "[rejected] " ++ extractRejectionFeedback (extractResultContent rc)
        else "[rejected]"] := by
  have hbeq : (extractResultContent rc == "") = false := beq_eq_false_iff_ne.mpr hne
  simp [extractToolContext, toolContextLine, hknown, hbeq, hrej]

/-- Witness for C9: the spec's concrete scenario — a tool result reading
`"The user doesn't want to proceed... the user said:\nuse yarn not npm"`
paired to a known `Bash` invocation yields exactly the line
`"[rejected] use yarn not npm"`. -/
theorem rejection_line_extraction_witness :
    ((([("t1", "Bash")] : List (String × String)).lookup "t1").isSome = true) ∧
    extractResultContent (some (Sum.inl
      "The user doesn\x27t want to proceed... the user said:\nuse yarn not npm")) ≠ "" ∧
    isUserRejection (extractResultContent (some (Sum.inl
      "The user doesn\x27t want to proceed... the user said:\nuse yarn not npm"))) = true ∧
    extractToolContext (MessageContent.blocks [ContentBlock.toolResult (some "t1")
        (some (Sum.inl
          "The user doesn\x27t want to proceed... the user said:\nuse yarn not npm"))
        false]) Role.user [("t1", "Bash")] =
      ["[rejected] use yarn not npm"] := by
  refine ⟨rfl, by decide, by decide, ?_⟩
  have h := rejection_line_extraction [("t1", "Bash")] "t1"
    (some (Sum.inl "The user doesn\x27t want to proceed... the user said:\nuse yarn not npm"))
    false rfl (by decide) (by decide)
  rw [h]
  decide

/-- Turn a propositional/boolean equivalence into an equality of `decide`. -/
theorem decide_eq_of_iff {P : Prop} [Decidable P] {b : Bool} (h : P ↔ b = true) :
    decide P = b := by
  cases b
  · simp only [Bool.false_eq_true, iff_false] at h
    simpa using h
  · simpa using h.mpr rfl

theorem mem_setInsert (l : List Nat) (x y : Nat) : y ∈ setInsert l x ↔ y ∈ l ∨ y = x := by
  unfold setInsert
  by_cases h : x ∈ l
  · rw [if_pos h]
    constructor
    · exact Or.inl
    · rintro (hy | rfl)
      · exact hy
      · exact h
  · rw [if_neg h]
    simp [List.mem_append]

theorem setInsert_nodup (l : List Nat) (x : Nat) (h : l.Nodup) : (setInsert l x).Nodup := by
  unfold setInsert
  by_cases hx : x ∈ l
  · rw [if_pos hx]
    exact h
  · rw [if_neg hx]
    simp [List.nodup_append, h, hx]

theorem mem_keepStep (messages : List ParsedMessage) (acc : List Nat) (u x : Nat) :
    x ∈ keepStep messages acc u ↔
      x ∈ acc ∨ x = u ∨
        (x + 1 = u ∧ (messages.getD x default).role = Role.assistant) := by
  unfold keepStep
  by_cases h : 0 < u ∧ (messages.getD (u - 1) default).role = Role.assistant
  · rw [if_pos h, mem_setInsert, mem_setInsert]
    obtain ⟨hu, hrole⟩ := h
    constructor
    · rintro ((hx | rfl) | rfl)
      · exact Or.inl hx
      · exact Or.inr (Or.inl rfl)
      · refine Or.inr (Or.inr ⟨by omega, hrole⟩)
    · rintro (hx | rfl | ⟨hx1, hr⟩)
      · exact Or.inl (Or.inl hx)
      · exact Or.inl (Or.inr rfl)
      · right
        omega
  · rw [if_neg h, mem_setInsert]
    constructor
    · rintro (hx | rfl)
      · exact Or.inl hx
      · exact Or.inr (Or.inl rfl)
    · rintro (hx | rfl | ⟨hx1, hr⟩)
      · exact Or.inl hx
      · exact Or.inr rfl
      · exfalso
        apply h
        constructor
        · omega
        · have hux : u - 1 = x := by omega
          rw [hux]
          exact hr

theorem keepStep_nodup (messages : List ParsedMessage) (acc : List Nat) (u : Nat)
    (h : acc.Nodup) : (keepStep messages acc u).Nodup := by
  unfold keepStep
  split
  · exact setInsert_nodup _ _ (setInsert_nodup _ _ h)
  · exact setInsert_nodup _ _ h

theorem mem_foldl_keepStep (messages : List ParsedMessage) :
    ∀ (ku acc : List Nat) (x : Nat),
      x ∈ ku.foldl (keepStep messages) acc ↔
        x ∈ acc ∨ x ∈ ku ∨
          (x + 1 ∈ ku ∧ (messages.getD x default).role = Role.assistant) := by
  intro ku
  induction ku with
  | nil => intro acc x; simp
  | cons u t ih =>
    intro acc x
    rw [List.foldl_cons, ih, mem_keepStep]
    simp only [List.mem_cons]
    tauto

theorem foldl_keepStep_nodup (messages : List ParsedMessage) :
    ∀ (ku acc : List Nat), acc.Nodup → (ku.foldl (keepStep messages) acc).Nodup := by
  intro ku
  induction ku with
  | nil => intro acc h; exact h
  | cons u t ih => intro acc h; exact ih _ (keepStep_nodup _ _ _ h)

theorem mem_buildKeepIndices (messages : List ParsedMessage) (ku : List Nat) (x : Nat) :
    x ∈ buildKeepIndices messages ku ↔
      x ∈ ku ∨ (x + 1 ∈ ku ∧ (messages.getD x default).role = Role.assistant) := by
  unfold buildKeepIndices
  rw [mem_foldl_keepStep]
  simp

theorem buildKeepIndices_nodup (messages : List ParsedMessage) (ku : List Nat) :
    (buildKeepIndices messages ku).Nodup :=
  foldl_keepStep_nodup messages ku [] List.nodup_nil

theorem userIndicesOf_sorted (messages : List ParsedMessage) :
    List.Sorted (· < ·) (userIndicesOf messages) :=
  List.Pairwise.sublist (List.filter_sublist _) (List.pairwise_lt_range messages.length)

theorem mem_userIndicesOf (messages : List ParsedMessage) (i : Nat) :
    i ∈ userIndicesOf messages ↔
      i < messages.length ∧ (messages.getD i default).role = Role.user := by
  unfold userIndicesOf
  rw [List.mem_filter, List.mem_range]
  simp [beq_iff_eq]

theorem userIndicesOf_lt (messages : List ParsedMessage) :
    ∀ i ∈ userIndicesOf messages, i < messages.length := by
  intro i hi
  exact ((mem_userIndicesOf messages i).mp hi).1

theorem filterMap_ite_eq_filter_map {α β : Type} (P : α → Prop) [DecidablePred P]
    (f : α → β) (l : List α) :
    (l.filterMap fun a => if P a then some (f a) else none) =
      (l.filter fun a => decide (P a)).map f := by
  induction l with
  | nil => rfl
  | cons a t ih =>
    by_cases h : P a
    · simp [h, ih]
    · simp [h, ih]

theorem windowedParts_eq (messages : List ParsedMessage) (ws : Nat) :
    windowedParts messages ws =
      ((List.range messages.length).filter fun i =>
        decide (i ∈ keepIndicesOf messages ws)).map (fmtAt messages) := by
  unfold windowedParts
  exact filterMap_ite_eq_filter_map _ _ _

theorem range_filter_split (n b : Nat) (hb : b ≤ n) (p : Nat → Bool) :
    (List.range n).filter p =
      ((List.range n).filter fun i => p i && decide (i < b)) ++
        ((List.range n).filter fun i => p i && decide (b ≤ i)) := by
  have hn : n = b + (n - b) := by omega
  rw [hn]
  rw [List.range_add, List.filter_append, List.filter_append, List.filter_append]
  have h1 : (List.range b).filter (fun i => p i && decide (i < b)) =
      (List.range b).filter p := by
    apply List.filter_congr
    intro x hx
    rw [List.mem_range] at hx
    simp [hx]
  have h2 : ((List.range (n - b)).map (fun x => b + x)).filter
      (fun i => p i && decide (i < b)) = [] := by
    rw [List.filter_eq_nil_iff]
    intro a ha
    rw [List.mem_map] at ha
    obtain ⟨x, hx, rfl⟩ := ha
    have hnlt : ¬ (b + x < b) := by omega
    simp [hnlt]
  have h3 : (List.range b).filter (fun i => p i && decide (b ≤ i)) = [] := by
    rw [List.filter_eq_nil_iff]
    intro a ha
    rw [List.mem_range] at ha
    have hnle : ¬ (b ≤ a) := by omega
    simp [hnle]
  have h4 : ((List.range (n - b)).map (fun x => b + x)).filter
      (fun i => p i && decide (b ≤ i)) =
      ((List.range (n - b)).map (fun x => b + x)).filter p := by
    apply List.filter_congr
    intro a ha
    rw [List.mem_map] at ha
    obtain ⟨x, hx, rfl⟩ := ha
    have hle : b ≤ b + x := Nat.le_add_right b x
    simp [hle]
  rw [h1, h2, h3, h4]
  simp

theorem mergeSort_le_eq_range_filter (l : List Nat) (n : Nat) (hnd : l.Nodup)
    (hlt : ∀ x ∈ l, x < n) :
    l.mergeSort (fun a b => decide (a ≤ b)) =
      (List.range n).filter fun i => decide (i ∈ l) := by
  have hperm : (l.mergeSort fun a b => decide (a ≤ b)).Perm
      ((List.range n).filter fun i => decide (i ∈ l)) := by
    refine (List.mergeSort_perm l _).trans ?_
    rw [List.perm_ext_iff_of_nodup hnd (List.Nodup.filter _ (List.nodup_range n))]
    intro a
    rw [List.mem_filter, List.mem_range]
    simp only [decide_eq_true_eq]
    exact ⟨fun h => ⟨hlt a h, h⟩, fun h => h.2⟩
  have hs1 : List.Sorted (· ≤ ·) (l.mergeSort fun a b => decide (a ≤ b)) := by
    have h : List.Pairwise (fun a b : Nat => (decide (a ≤ b)) = true)
        (l.mergeSort fun a b => decide (a ≤ b)) :=
      List.sorted_mergeSort
        (fun a b c hab hbc => by
          simp only [decide_eq_true_eq] at hab hbc ⊢
          omega)
        (fun a b => by rcases Nat.le_total a b with h | h <;> simp [h]) l
    exact h.imp fun hab => by simpa using hab
  have hs2 : List.Sorted (· ≤ ·) ((List.range n).filter fun i => decide (i ∈ l)) := by
    have h : List.Pairwise (· < ·) ((List.range n).filter fun i => decide (i ∈ l)) :=
      List.Pairwise.sublist (List.filter_sublist (List.range n))
        (List.pairwise_lt_range n)
    exact h.imp fun hab => Nat.le_of_lt hab
  exact List.eq_of_perm_of_sorted hperm hs1 hs2

theorem jsFindIndexAux_eq (p : Nat → Bool) (k : Nat) (hpk : p k = true) :
    ∀ (fuel start : Nat), start ≤ k → k < start + fuel →
      (∀ j, start ≤ j → j < k → p j = false) →
      jsFindIndexAux p fuel start = (k : Int) := by
  intro fuel
  induction fuel with
  | zero =>
    intro start h1 h2 h3
    omega
  | succ m ih =>
    intro start h1 h2 h3
    by_cases hs : p start = true
    · have hk : start = k := by
        by_contra hne
        have hlt : start < k := by omega
        have hfalse := h3 start le_rfl hlt
        rw [hs] at hfalse
        exact Bool.noConfusion hfalse
      show (if p start then (start : Int) else jsFindIndexAux p m (start + 1)) = (k : Int)
      rw [if_pos hs, hk]
    · have hsf : p start = false := Bool.eq_false_iff.mpr hs
      show (if p start then (start : Int) else jsFindIndexAux p m (start + 1)) = (k : Int)
      rw [if_neg (by simp [hsf])]
      have hsk : start ≠ k := by
        intro h
        rw [h, hpk] at hsf
        exact Bool.noConfusion hsf
      exact ih (start + 1) (by omega) (by omega) (fun j hj1 hj2 => h3 j (by omega) hj2)

theorem jsFindIndex_eq (p : Nat → Bool) (len k : Nat) (hk : k < len) (hpk : p k = true)
    (hbefore : ∀ j, j < k → p j = false) :
    jsFindIndex len p = (k : Int) :=
  jsFindIndexAux_eq p k hpk len 0 (Nat.zero_le k) (by omega)
    (fun j _ hj => hbefore j hj)

theorem joinLines_length : ∀ l : List String, l ≠ [] →
    (joinLines l).length = (l.map String.length).sum + (l.length - 1) := by
  intro l
  induction l with
  | nil => intro h; exact absurd rfl h
  | cons s t ih =>
    intro _
    cases t with
    | nil => simp [joinLines]
    | cons s2 t2 =>
      have h2 : joinLines (s :: s2 :: t2) = s ++ "\n" ++ joinLines (s2 :: t2) := rfl
      have hnl : ("\n" : String).length = 1 := rfl
      rw [h2, String.length_append, String.length_append, ih (by simp), hnl]
      simp only [List.map_cons, List.sum_cons, List.length_cons]
      omega

theorem getD_replicate {α : Type} (n : Nat) (a d : α) (i : Nat) (h : i < n) :
    (List.replicate n a).getD i d = a := by
  rw [List.getD_eq_getElem?_getD, List.getElem?_replicate, if_pos h]
  rfl

/-- The windowing branch of `buildConversationText` computes exactly the
output described by the spec: kept head (ascending), one marker, kept tail
(ascending). -/
theorem windowedText_eq_spec (messages : List ParsedMessage) (ws : Nat) (hws : 0 < ws)
    (hcount : ws * 2 < (userIndicesOf messages).length) :
    windowedText messages ws = specWindowedText messages ws := by
  have hUlen : ws * 2 < (userIndicesOf messages).length := hcount
  have hlastlen : (lastNUsers messages ws).length = ws := by
    unfold lastNUsers
    rw [List.length_drop]
    omega
  have hlast_pos : 0 < (lastNUsers messages ws).length := by
    rw [hlastlen]
    exact hws
  have hbmem : boundaryOf messages ws ∈ lastNUsers messages ws := by
    unfold boundaryOf
    rw [List.getD_eq_getElem _ _ hlast_pos]
    exact List.getElem_mem hlast_pos
  have hbmemU : boundaryOf messages ws ∈ userIndicesOf messages :=
    List.drop_subset _ _ hbmem
  have hbn : boundaryOf messages ws < messages.length :=
    userIndicesOf_lt _ _ hbmemU
  have hbK : boundaryOf messages ws ∈ keepIndicesOf messages ws := by
    unfold keepIndicesOf
    rw [mem_buildKeepIndices]
    exact Or.inl (List.mem_append_right _ hbmem)
  have hfirst_pos : 0 < (firstNUsers messages ws).length := by
    unfold firstNUsers
    rw [List.length_take, Nat.min_def]
    split <;> omega
  have hu0mem : (firstNUsers messages ws).getD 0 0 ∈ firstNUsers messages ws := by
    rw [List.getD_eq_getElem _ _ hfirst_pos]
    exact List.getElem_mem hfirst_pos
  have hsplitU : ∀ x ∈ (userIndicesOf messages).take ws,
      ∀ y ∈ (userIndicesOf messages).drop ((userIndicesOf messages).length - ws),
        x < y := by
    have hpw : List.Pairwise (· < ·)
        ((userIndicesOf messages).take ((userIndicesOf messages).length - ws) ++
          (userIndicesOf messages).drop ((userIndicesOf messages).length - ws)) := by
      rw [List.take_append_drop]
      exact userIndicesOf_sorted messages
    have hcross := (List.pairwise_append.mp hpw).2.2
    intro x hx y hy
    apply hcross
    · have hwk : ws ≤ (userIndicesOf messages).length - ws := by omega
      have hx' : x ∈ ((userIndicesOf messages).take
          ((userIndicesOf messages).length - ws)).take ws := by
        rw [List.take_take, min_eq_left hwk]
        exact hx
      exact List.take_subset _ _ hx'
    · exact hy
  have hu0b : (firstNUsers messages ws).getD 0 0 < boundaryOf messages ws :=
    hsplitU _ hu0mem _ hbmem
  have hu0K : (firstNUsers messages ws).getD 0 0 ∈ keepIndicesOf messages ws := by
    unfold keepIndicesOf
    rw [mem_buildKeepIndices]
    exact Or.inl (List.mem_append_left _ hu0mem)
  have hu0n : (firstNUsers messages ws).getD 0 0 < messages.length :=
    userIndicesOf_lt _ _ (List.take_subset _ _ hu0mem)
  have hKlt : ∀ x ∈ keepIndicesOf messages ws, x < messages.length := by
    intro x hx
    unfold keepIndicesOf at hx
    rw [mem_buildKeepIndices] at hx
    rcases hx with hx | ⟨hx1, -⟩
    · rcases List.mem_append.mp hx with h | h
      · exact userIndicesOf_lt _ _ (List.take_subset _ _ h)
      · exact userIndicesOf_lt _ _ (List.drop_subset _ _ h)
    · have hx1n : x + 1 < messages.length := by
        rcases List.mem_append.mp hx1 with h | h
        · exact userIndicesOf_lt _ _ (List.take_subset _ _ h)
        · exact userIndicesOf_lt _ _ (List.drop_subset _ _ h)
      omega
  have hKnd : (keepIndicesOf messages ws).Nodup := buildKeepIndices_nodup _ _
  have hsortA : sortedKeepOf messages ws =
      (List.range messages.length).filter fun i =>
        decide (i ∈ keepIndicesOf messages ws) :=
    mergeSort_le_eq_range_filter _ _ hKnd hKlt
  have hsplitA : ((List.range messages.length).filter fun i =>
      decide (i ∈ keepIndicesOf messages ws)) =
      ((List.range messages.length).filter fun i =>
        decide (i ∈ keepIndicesOf messages ws) && decide (i < boundaryOf messages ws)) ++
      ((List.range messages.length).filter fun i =>
        decide (i ∈ keepIndicesOf messages ws) && decide (boundaryOf messages ws ≤ i)) :=
    range_filter_split _ _ (Nat.le_of_lt hbn) _
  have hparts : windowedParts messages ws =
      ((List.range messages.length).filter fun i =>
        decide (i ∈ keepIndicesOf messages ws)).map (fmtAt messages) :=
    windowedParts_eq messages ws
  have hu0A1 : (firstNUsers messages ws).getD 0 0 ∈
      ((List.range messages.length).filter fun i =>
        decide (i ∈ keepIndicesOf messages ws) && decide (i < boundaryOf messages ws)) := by
    rw [List.mem_filter]
    refine ⟨List.mem_range.mpr hu0n, ?_⟩
    rw [Bool.and_eq_true, decide_eq_true_eq, decide_eq_true_eq]
    exact ⟨hu0K, hu0b⟩
  have hbA2 : boundaryOf messages ws ∈
      ((List.range messages.length).filter fun i =>
        decide (i ∈ keepIndicesOf messages ws) &&
          decide (boundaryOf messages ws ≤ i)) := by
    rw [List.mem_filter]
    refine ⟨List.mem_range.mpr hbn, ?_⟩
    rw [Bool.and_eq_true, decide_eq_true_eq, decide_eq_true_eq]
    exact ⟨hbK, le_rfl⟩
  have hA1pos : 0 < ((List.range messages.length).filter fun i =>
      decide (i ∈ keepIndicesOf messages ws) &&
        decide (i < boundaryOf messages ws)).length :=
    List.length_pos.mpr (List.ne_nil_of_mem hu0A1)
  have hA2pos : 0 < ((List.range messages.length).filter fun i =>
      decide (i ∈ keepIndicesOf messages ws) &&
        decide (boundaryOf messages ws ≤ i)).length :=
    List.length_pos.mpr (List.ne_nil_of_mem hbA2)
  have hfind : insertPosOf messages ws =
      ((((List.range messages.length).filter fun i =>
        decide (i ∈ keepIndicesOf messages ws) &&
          decide (i < boundaryOf messages ws)).length : Nat) : Int) := by
    unfold insertPosOf
    rw [hparts, List.length_map, hsortA, hsplitA]
    apply jsFindIndex_eq
    · rw [List.length_append]
      omega
    · rw [List.getD_append_right _ _ _ _ le_rfl, Nat.sub_self]
      have hmem : (((List.range messages.length).filter fun i =>
          decide (i ∈ keepIndicesOf messages ws) &&
            decide (boundaryOf messages ws ≤ i))).getD 0 0 ∈
          ((List.range messages.length).filter fun i =>
            decide (i ∈ keepIndicesOf messages ws) &&
              decide (boundaryOf messages ws ≤ i)) := by
        rw [List.getD_eq_getElem _ _ hA2pos]
        exact List.getElem_mem hA2pos
      have hcond := (List.mem_filter.mp hmem).2
      simp only [Bool.and_eq_true, decide_eq_true_eq] at hcond
      exact decide_eq_true_eq.mpr hcond.2 ▸ rfl
    · intro j hj
      rw [List.getD_append _ _ _ _ hj]
      have hmem : (((List.range messages.length).filter fun i =>
          decide (i ∈ keepIndicesOf messages ws) &&
            decide (i < boundaryOf messages ws))).getD j 0 ∈
          ((List.range messages.length).filter fun i =>
            decide (i ∈ keepIndicesOf messages ws) &&
              decide (i < boundaryOf messages ws)) := by
        rw [List.getD_eq_getElem _ _ hj]
        exact List.getElem_mem hj
      have hcond := (List.mem_filter.mp hmem).2
      simp only [Bool.and_eq_true, decide_eq_true_eq] at hcond
      exact decide_eq_false (by omega)
  have hdecKeep : ∀ x, decide (x ∈ keepIndicesOf messages ws) = specKeep messages ws x := by
    intro x
    apply decide_eq_of_iff
    unfold specKeep specKeptUsers keepIndicesOf
    rw [mem_buildKeepIndices]
    simp only [Bool.or_eq_true, Bool.and_eq_true, decide_eq_true_eq]
  unfold windowedText
  rw [hfind]
  rw [if_pos (by exact_mod_cast hA1pos)]
  rw [Int.toNat_natCast]
  rw [hparts, hsplitA, List.map_append]
  rw [List.take_left' (by rw [List.length_map]), List.drop_left' (by rw [List.length_map])]
  unfold specWindowedText specHeadParts specTailParts
  have hcong1 : ((List.range messages.length).filter fun i =>
      decide (i ∈ keepIndicesOf messages ws) && decide (i < boundaryOf messages ws)) =
      ((List.range messages.length).filter fun i =>
        specKeep messages ws i && decide (i < boundaryOf messages ws)) := by
    apply List.filter_congr
    intro x _
    rw [hdecKeep x]
  have hcong2 : ((List.range messages.length).filter fun i =>
      decide (i ∈ keepIndicesOf messages ws) && decide (boundaryOf messages ws ≤ i)) =
      ((List.range messages.length).filter fun i =>
        specKeep messages ws i && decide (boundaryOf messages ws ≤ i)) := by
    apply List.filter_congr
    intro x _
    rw [hdecKeep x]
  rw [hcong1, hcong2]

/-- Over budget and over the user-count threshold, `buildConversationText`
produces the windowed output. -/
theorem buildConversationText_windowed (messages : List ParsedMessage) (full : Bool)
    (hover : maxTotalCharsOf full < (assembleText messages).length)
    (hcount : windowSizeOf full * 2 < (userIndicesOf messages).length) :
    buildConversationText messages full = specWindowedText messages (windowSizeOf full) := by
  unfold buildConversationText
  rw [if_pos hover, if_pos hcount]
  apply windowedText_eq_spec
  · cases full <;> simp [windowSizeOf, FULL_WINDOW_SIZE]
  · exact hcount

/-- When the user-message count does not exceed twice the window size, no
windowing occurs, over budget or not. -/
theorem buildConversationText_nowindow (messages : List ParsedMessage) (full : Bool)
    (h : (userIndicesOf messages).length ≤ windowSizeOf full * 2) :
    buildConversationText messages full = assembleText messages := by
  unfold buildConversationText
  by_cases hover : maxTotalCharsOf full < (assembleText messages).length
  · rw [if_pos hover, if_neg (by omega)]
  · rw [if_neg hover]

theorem bigText_length (n : Nat) : (bigText n).length = n := by
  unfold bigText
  rw [String.length_mk, List.length_replicate]

theorem fmtMessage_user_length (t : String) :
    (fmtMessage ⟨Role.user, t⟩).length = 6 + t.length := by
  show (("User" : String) ++ ": " ++ t).length = 6 + t.length
  rw [String.length_append, String.length_append]
  have h4 : ("User" : String).length = 4 := rfl
  have h2 : (": " : String).length = 2 := rfl
  omega

theorem joinLines_replicate_length (k : Nat) (s : String) (hk : 0 < k) :
    (joinLines (List.replicate k s)).length = k * s.length + (k - 1) := by
  rw [joinLines_length _ (by
    apply List.ne_nil_of_length_pos
    rw [List.length_replicate]
    exact hk)]
  rw [List.map_replicate, List.sum_replicate, List.length_replicate, smul_eq_mul]

theorem userIndicesOf_userMsgs (k : Nat) (t : String) :
    userIndicesOf (userMsgs k t) = List.range k := by
  unfold userIndicesOf userMsgs
  rw [List.length_replicate]
  apply List.filter_eq_self.mpr
  intro a ha
  rw [List.mem_range] at ha
  rw [getD_replicate _ _ _ _ ha]
  rfl

theorem assembleText_userMsgs_length (k : Nat) (t : String) (hk : 0 < k) :
    (assembleText (userMsgs k t)).length = k * (6 + t.length) + (k - 1) := by
  unfold assembleText userMsgs
  rw [List.map_replicate]
  have hf : fmtMessage ⟨Role.user, t⟩ = fmtMessage { role := Role.user, text := t } := rfl
  rw [joinLines_replicate_length k _ hk, fmtMessage_user_length]

theorem map_map_length_const {α : Type} :
    ∀ (l : List α) (f : α → String) (c : Nat), (∀ i ∈ l, (f i).length = c) →
      (l.map f).map String.length = List.replicate l.length c := by
  intro l
  induction l with
  | nil => intro f c h; rfl
  | cons a t ih =>
    intro f c h
    simp only [List.map_cons, List.length_cons, List.replicate_succ, List.cons.injEq]
    exact ⟨h a (List.mem_cons_self a t),
      ih f c (fun i hi => h i (List.mem_cons_of_mem a hi))⟩

/-- Claim C4: global windowing policy.  When the assembled text exceeds the
active budget and the user-message count exceeds twice the active window
size, the output is exactly: the kept head (first-N/last-N user positions
plus immediately preceding assistant messages, ascending, before the first
kept tail user position), one literal marker line, and the kept tail;
everything else is discarded.  When the user-message count does not exceed
twice the window size, no windowing occurs even over budget. -/
theorem buildConversationText_windowing :
    (∀ (messages : List ParsedMessage) (full : Bool),
        maxTotalCharsOf full < (assembleText messages).length →
        windowSizeOf full * 2 < (userIndicesOf messages).length →
        buildConversationText messages full =
          specWindowedText messages (windowSizeOf full)) ∧
    (∀ (messages : List ParsedMessage) (full : Bool),
        (userIndicesOf messages).length ≤ windowSizeOf full * 2 →
        buildConversationText messages full = assembleText messages) :=
  ⟨buildConversationText_windowed, buildConversationText_nowindow⟩

/-- Witness for C4: 41 user messages of 12,500 characters each exceed the
bounded-mode budget (512,786 > 500,000 characters) and the user-count
threshold (41 > 40), so the windowed equality applies; an empty session
satisfies the no-windowing branch. -/
theorem buildConversationText_windowing_witness :
    (maxTotalCharsOf false < (assembleText (userMsgs 41 (bigText 12500))).length ∧
      windowSizeOf false * 2 < (userIndicesOf (userMsgs 41 (bigText 12500))).length ∧
      buildConversationText (userMsgs 41 (bigText 12500)) false =
        specWindowedText (userMsgs 41 (bigText 12500)) (windowSizeOf false)) ∧
    ((userIndicesOf (userMsgs 0 "")).length ≤ windowSizeOf false * 2 ∧
      buildConversationText (userMsgs 0 "") false = assembleText (userMsgs 0 "")) := by
  have hlen : (assembleText (userMsgs 41 (bigText 12500))).length = 512786 := by
    rw [assembleText_userMsgs_length 41 _ (by norm_num), bigText_length]
  have hcnt : (userIndicesOf (userMsgs 41 (bigText 12500))).length = 41 := by
    rw [userIndicesOf_userMsgs, List.length_range]
  have h1 : maxTotalCharsOf false < (assembleText (userMsgs 41 (bigText 12500))).length := by
    rw [hlen]
    norm_num [maxTotalCharsOf, MAX_TOTAL_CHARS]
  have h2 : windowSizeOf false * 2 < (userIndicesOf (userMsgs 41 (bigText 12500))).length := by
    rw [hcnt]
    norm_num [windowSizeOf]
  have h4 : (userIndicesOf (userMsgs 0 "")).length ≤ windowSizeOf false * 2 := by
    rw [userIndicesOf_userMsgs, List.length_range]
    norm_num [windowSizeOf]
  exact ⟨⟨h1, h2, buildConversationText_windowing.1 _ _ h1 h2⟩,
    ⟨h4, buildConversationText_windowing.2 _ _ h4⟩⟩

set_option maxRecDepth 16384 in
/-- Counterexample to claim C5 as stated: in FULL mode the window half-size
is `FULL_WINDOW_SIZE = 50`, not 20, so a session of 100 user messages is
never windowed in full mode (100 is not greater than 2 × 50) — even when its
assembled text exceeds the full-mode threshold, the output is the entire
unwindowed text, not the claimed positions-0..19/80..99-plus-marker output. -/
theorem fullMode_hundred_users_counterexample :
    FULL_MAX_TOTAL_CHARS < (assembleText (userMsgs 100 (bigText 8001))).length ∧
    buildConversationText (userMsgs 100 (bigText 8001)) true =
      assembleText (userMsgs 100 (bigText 8001)) ∧
    buildConversationText (userMsgs 100 (bigText 8001)) true ≠
      specWindowedText (userMsgs 100 (bigText 8001)) 20 := by
  have hlen : (assembleText (userMsgs 100 (bigText 8001))).length = 800799 := by
    rw [assembleText_userMsgs_length 100 _ (by norm_num), bigText_length]
  have hover : FULL_MAX_TOTAL_CHARS < (assembleText (userMsgs 100 (bigText 8001))).length := by
    rw [hlen]
    norm_num [FULL_MAX_TOTAL_CHARS]
  have hcnt : (userIndicesOf (userMsgs 100 (bigText 8001))).length = 100 := by
    rw [userIndicesOf_userMsgs, List.length_range]
  have hnw : buildConversationText (userMsgs 100 (bigText 8001)) true =
      assembleText (userMsgs 100 (bigText 8001)) := by
    apply buildConversationText_nowindow
    rw [hcnt]
    norm_num [windowSizeOf, FULL_WINDOW_SIZE]
  have hhead : specHeadParts (userMsgs 100 (bigText 8001)) 20 =
      (List.range 20).map (fmtAt (userMsgs 100 (bigText 8001))) := by
    unfold specHeadParts
    congr 1
  have htail : specTailParts (userMsgs 100 (bigText 8001)) 20 =
      ((List.range 20).map (fun j => 80 + j)).map (fmtAt (userMsgs 100 (bigText 8001))) := by
    unfold specTailParts
    congr 1
  have hpartlen : ∀ i, i < 100 → (fmtAt (userMsgs 100 (bigText 8001)) i).length = 8007 := by
    intro i hi
    unfold fmtAt userMsgs
    rw [getD_replicate _ _ _ _ hi]
    rw [fmtMessage_user_length, bigText_length]
  have hwinlen : (specWindowedText (userMsgs 100 (bigText 8001)) 20).length = 320364 := by
    unfold specWindowedText
    rw [hhead, htail]
    rw [joinLines_length _ (by simp)]
    rw [List.map_append, List.map_append]
    rw [map_map_length_const (List.range 20) _ 8007 (fun i hi =>
      hpartlen i (by rw [List.mem_range] at hi; omega))]
    rw [map_map_length_const ((List.range 20).map (fun j => 80 + j)) _ 8007 (fun i hi => by
      rw [List.mem_map] at hi
      obtain ⟨j, hj, rfl⟩ := hi
      rw [List.mem_range] at hj
      exact hpartlen _ (by omega))]
    have hm : ([truncationMarker].map String.length) = [44] := rfl
    rw [hm]
    simp [List.sum_append, List.sum_replicate, List.length_append, List.length_replicate,
      List.length_map, List.length_range, smul_eq_mul]
  refine ⟨hover, hnw, ?_⟩
  intro heq
  have hlencontra := congrArg String.length heq
  rw [hnw, hlen] at hlencontra
  rw [hwinlen] at hlencontra
  norm_num at hlencontra

/-- Claim C5 (amended): the spec's 100-user-message windowing example holds
in BOUNDED mode, whose window half-size is 20: over the bounded budget the
condensed output retains exactly the first 20 and last 20 user positions
(user-positions 0–19 and 80–99) plus immediately preceding assistant
messages, with exactly one marker between head and tail.  In full mode the
half-size is `FULL_WINDOW_SIZE = 50`, so 100 user messages never trigger
windowing there. -/
theorem hundred_users_window_bounded :
    (∀ messages : List ParsedMessage,
        (userIndicesOf messages).length = 100 →
        MAX_TOTAL_CHARS < (assembleText messages).length →
        buildConversationText messages false = specWindowedText messages 20) ∧
    (∀ messages : List ParsedMessage,
        (userIndicesOf messages).length = 100 →
        buildConversationText messages true = assembleText messages) := by
  constructor
  · intro messages h100 hover
    have h := buildConversationText_windowed messages false hover
      (by rw [h100]; norm_num [windowSizeOf])
    exact h
  · intro messages h100
    exact buildConversationText_nowindow messages true
      (by rw [h100]; norm_num [windowSizeOf, FULL_WINDOW_SIZE])

/-- Witness for the amended C5: 100 user messages of 5,001 characters each
(500,799 > 500,000 characters assembled) window in bounded mode and do not
window in full mode. -/
theorem hundred_users_window_bounded_witness :
    (userIndicesOf (userMsgs 100 (bigText 5001))).length = 100 ∧
    MAX_TOTAL_CHARS < (assembleText (userMsgs 100 (bigText 5001))).length ∧
    buildConversationText (userMsgs 100 (bigText 5001)) false =
      specWindowedText (userMsgs 100 (bigText 5001)) 20 ∧
    buildConversationText (userMsgs 100 (bigText 5001)) true =
      assembleText (userMsgs 100 (bigText 5001)) := by
  have hcnt : (userIndicesOf (userMsgs 100 (bigText 5001))).length = 100 := by
    rw [userIndicesOf_userMsgs, List.length_range]
  have hlen : (assembleText (userMsgs 100 (bigText 5001))).length = 500799 := by
    rw [assembleText_userMsgs_length 100 _ (by norm_num), bigText_length]
  have hover : MAX_TOTAL_CHARS < (assembleText (userMsgs 100 (bigText 5001))).length := by
    rw [hlen]
    norm_num [MAX_TOTAL_CHARS]
  exact ⟨hcnt, hover, hundred_users_window_bounded.1 _ hcnt hover,
    hundred_users_window_bounded.2 _ hcnt⟩

/-- Claim C10 (amended): session discovery returns entries sorted by
modified timestamp newest-first (non-increasing; entries can share a
timestamp) as a permutation of the input, and applying a result limit `n`
takes the first `n` of the not-yet-processed entries in that order — so
every selected session is unprocessed and at least as recent as every
unselected unprocessed session.  `time` is the host date parser
`s ↦ new Date(s).getTime()`, a parameter of the embedding. -/
theorem discovery_sorted_and_limit :
    (∀ (time : String → Int) (entries : List SessionIndexEntry),
        (sortEntriesByModifiedDesc time entries).Perm entries ∧
        List.Sorted (fun a b => time b.modified ≤ time a.modified)
          (sortEntriesByModifiedDesc time entries)) ∧
    (∀ (time : String → Int) (state : ReflectorState)
        (entries : List SessionIndexEntry) (limit : Nat),
        (∀ e ∈ scanSelect time state entries limit,
          isSessionProcessed state e.sessionId e.modified = false) ∧
        (∀ x ∈ scanSelect time state entries limit,
          ∀ y ∈ (scanToProcess time state entries).drop limit,
            time y.modified ≤ time x.modified)) := by
  have hsorted : ∀ (time : String → Int) (entries : List SessionIndexEntry),
      List.Sorted (fun a b => time b.modified ≤ time a.modified)
        (sortEntriesByModifiedDesc time entries) := by
    intro time entries
    have h : List.Pairwise
        (fun a b : SessionIndexEntry => (decide (time b.modified ≤ time a.modified)) = true)
        (entries.mergeSort fun a b => decide (time b.modified ≤ time a.modified)) :=
      List.sorted_mergeSort
        (fun a b c hab hbc => by
          simp only [decide_eq_true_eq] at hab hbc ⊢
          omega)
        (fun a b => by
          rcases Int.le_total (time b.modified) (time a.modified) with h | h <;> simp [h])
        entries
    exact h.imp fun hab => by simpa using hab
  constructor
  · intro time entries
    exact ⟨List.mergeSort_perm entries _, hsorted time entries⟩
  · intro time state entries limit
    have hfiltered : List.Sorted (fun a b => time b.modified ≤ time a.modified)
        (scanToProcess time state entries) :=
      List.Pairwise.sublist (List.filter_sublist _) (hsorted time entries)
    constructor
    · intro e he
      have hmem : e ∈ scanToProcess time state entries :=
        List.take_subset _ _ he
      have hp := (List.mem_filter.mp hmem).2
      simpa using hp
    · intro x hx y hy
      have hpw : List.Pairwise (fun a b => time b.modified ≤ time a.modified)
          ((scanToProcess time state entries).take limit ++
            (scanToProcess time state entries).drop limit) := by
        rw [List.take_append_drop]
        exact hfiltered
      exact (List.pairwise_append.mp hpw).2.2 x hx y hy


/-- Witness for C10 at concrete inputs: entries `entryA` (newer) and
`entryB` (older), an empty ledger, limit 1 — `entryA` is selected,
unprocessed, and at least as recent as the unselected `entryB`. -/
theorem discovery_sorted_and_limit_witness :
    entryA ∈ scanSelect sampleTime emptyState [entryA, entryB] 1 ∧
    isSessionProcessed emptyState entryA.sessionId entryA.modified = false ∧
    entryB ∈ (scanToProcess sampleTime emptyState [entryA, entryB]).drop 1 ∧
    sampleTime entryB.modified ≤ sampleTime entryA.modified := by
  have hperm : (sortEntriesByModifiedDesc sampleTime [entryA, entryB]).Perm
      [entryA, entryB] := List.mergeSort_perm _ _
  have hsorted := (discovery_sorted_and_limit.1 sampleTime [entryA, entryB]).2
  obtain ⟨a, b, hab⟩ := List.length_eq_two.mp (by simpa using hperm.length_eq)
  rw [hab] at hperm hsorted
  have hR : sampleTime b.modified ≤ sampleTime a.modified :=
    (List.pairwise_cons.mp hsorted).1 b (List.mem_cons_self b [])
  have hmema : a ∈ [entryA, entryB] := hperm.mem_iff.mp (List.mem_cons_self a [b])
  have hsort2 : ([a, b] : List SessionIndexEntry) = [entryA, entryB] := by
    rcases List.mem_cons.mp hmema with ha | ha2
    · subst ha
      have hb : [b].Perm [entryB] := hperm.cons_inv
      rw [List.perm_singleton.mp hb]
    · have ha : a = entryB := by simpa using ha2
      subst ha
      have hE1mem : entryA ∈ [entryB, b] := hperm.mem_iff.mpr (List.mem_cons_self _ _)
      have hb : b = entryA := by
        rcases List.mem_cons.mp hE1mem with h | h
        · exact absurd h (by decide)
        · exact (List.mem_singleton.mp h).symm
      subst hb
      exact absurd hR (by decide)
  have hsortEq : sortEntriesByModifiedDesc sampleTime [entryA, entryB] = [entryA, entryB] :=
    hab.trans hsort2
  have htp : scanToProcess sampleTime emptyState [entryA, entryB] = [entryA, entryB] := by
    unfold scanToProcess
    rw [hsortEq]
    rfl
  have hsel : scanSelect sampleTime emptyState [entryA, entryB] 1 = [entryA] := by
    unfold scanSelect
    rw [htp]
    rfl
  have hx : entryA ∈ scanSelect sampleTime emptyState [entryA, entryB] 1 := by
    rw [hsel]
    exact List.mem_cons_self _ _
  have hy : entryB ∈ (scanToProcess sampleTime emptyState [entryA, entryB]).drop 1 := by
    rw [htp]
    exact List.mem_cons_self _ _
  exact ⟨hx, (discovery_sorted_and_limit.2 sampleTime emptyState [entryA, entryB] 1).1 _ hx,
    hy, (discovery_sorted_and_limit.2 sampleTime emptyState [entryA, entryB] 1).2 _ hx _ hy⟩

/-- Counterexample to claim C10 as stated: two distinct sessions (`entryA`,
`entryB2`) can share the same modified timestamp; then no date parser can
order the discovery result STRICTLY descending — the code guarantees
non-increasing (newest-first) order only. -/
theorem discovery_strict_desc_counterexample :
    ¬ (∀ (time : String → Int) (entries : List SessionIndexEntry),
        List.Pairwise (fun a b => time b.modified < time a.modified)
          (sortEntriesByModifiedDesc time entries)) := by
  intro h
  have h2 := h (fun _ => 0) [entryA, entryB2]
  have hperm : (sortEntriesByModifiedDesc (fun _ => 0) [entryA, entryB2]).Perm
      [entryA, entryB2] := List.mergeSort_perm _ _
  obtain ⟨a, b, hab⟩ := List.length_eq_two.mp (by simpa using hperm.length_eq)
  rw [hab] at h2
  have h3 := (List.pairwise_cons.mp h2).1 b (List.mem_cons_self b [])
  simp at h3
